import Mathlib

/-
Verification of the transaction state and aggregation engine of the
financeTracker repository (statement_tracker.py), as a shallow embedding.

Modelling conventions:
- A Python transaction tuple (date, store, amount, category) becomes the
  structure Txn.  The datetime object is represented by its strftime
  "YYYY-MM-DD" rendering (strptime/strftime round-trips are the identity on
  this representation, and datetime equality coincides with string equality),
  so month = strftime "YYYY-MM" is the 7-character initial segment of date.
- Monetary amounts are modelled as integers; float rounding is out of scope.
- The Python dict self.categories is an association list with
  update-in-place-or-append semantics (dget / dset below), matching dict
  insertion order.
- defaultdict(float) tables of generate_summary become total functions
  String to Int with default 0, updated pointwise (bump / bump2).
-/

set_option maxHeartbeats 1000000

namespace FinanceTracker

/-- A bank transaction: the tuple (date, store, amount, category) of
statement_tracker.py, with the date in its "YYYY-MM-DD" rendering. -/
structure Txn where
  date : String
  store : String
  amount : Int
  category : String
deriving DecidableEq, Repr


/-- date.strftime "YYYY-MM": the 7-character month key of a transaction,
as used by generate_summary. -/
def month (t : Txn) : String := t.date.take 7


/-- Python dict lookup d.get(k): value of the entry with key k, if any. -/
def dget (d : List (String × String)) (k : String) : Option String :=
  (d.find? (fun p => p.1 == k)).map (fun p => p.2)


/-- Python membership test: k in d. -/
def dmem (d : List (String × String)) (k : String) : Bool :=
  d.any (fun p => p.1 == k)


/-- Python dict assignment d[k] = v: replace the value in place if the key
is present, append the pair otherwise (dict insertion-order semantics). -/
def dset (d : List (String × String)) (k v : String) : List (String × String) :=
  if dmem d k then d.map (fun p => if p.1 == k then (k, v) else p)
  else d ++ [(k, v)]


/-- Python str.split(sep) on a character list: split at every separator,
keeping empty fields. -/
def splitChar (sep : Char) : List Char → List (List Char)
  | [] => [[]]
  | c :: cs =>
    if c = sep then [] :: splitChar sep cs
    else
      match splitChar sep cs with
      | [] => [[c]]
      | f :: fs => (c :: f) :: fs


/-- The ASCII whitespace stripped by Python str.strip(). -/
def isSpace (c : Char) : Bool :=
  c = ' ' || c = '\t' || c = '\n' || c = '\r'


/-- Python str.strip() on a character list: drop whitespace at both ends. -/
def stripChars (cs : List Char) : List Char :=
  ((cs.dropWhile isSpace).reverse.dropWhile isSpace).reverse


/-- BankStatementApp.extract_store_name: split the description on commas;
with at least two fields return the second stripped of surrounding
whitespace, else the whole description stripped.  The split and strip run
on the character list of the string. -/
def extract_store_name (description : String) : String :=
  match splitChar ',' description.toList with
  | _ :: second :: _ => String.mk (stripChars second)
  | _ => String.mk (stripChars description.toList)


/-- The four aggregate tables built by BankStatementApp.generate_summary.
Each defaultdict(float) is a total function with default 0. -/
structure Summary where
  summary_spending : String → String → Int
  summary_income : String → String → Int
  monthly_totals_spending : String → Int
  monthly_totals_income : String → Int


/-- Pointwise increment of a one-key defaultdict: f[k] += v. -/
def bump (f : String → Int) (k : String) (v : Int) : String → Int :=
  fun x => if x = k then f x + v else f x


/-- Pointwise increment of a two-key defaultdict: f[k1][k2] += v. -/
def bump2 (f : String → String → Int) (k1 k2 : String) (v : Int) :
    String → String → Int :=
  fun x y => if x = k1 ∧ y = k2 then f x y + v else f x y


/-- The empty aggregate tables (all defaultdicts start at 0). -/
def initSummary : Summary :=
  ⟨fun _ _ => 0, fun _ _ => 0, fun _ => 0, fun _ => 0⟩


/-- One iteration of the generate_summary loop body on a transaction:
spending tables take abs(amount) when amount < 0, income tables take
amount when amount > 0, zero amounts touch nothing. -/
def summaryStep (acc : Summary) (t : Txn) : Summary :=
  if t.amount < 0 then
    { acc with
      summary_spending := bump2 acc.summary_spending (month t) t.category |t.amount|,
      monthly_totals_spending := bump acc.monthly_totals_spending (month t) |t.amount| }
  else if 0 < t.amount then
    { acc with
      summary_income := bump2 acc.summary_income (month t) t.category t.amount,
      monthly_totals_income := bump acc.monthly_totals_income (month t) t.amount }
  else acc


/-- BankStatementApp.generate_summary: a single pass over the active
transaction list rebuilding all four tables from zero. -/
def generate_summary (ts : List Txn) : Summary :=
  ts.foldl summaryStep initSummary


/-- The two-row scenario of the spec, with amounts in pence. -/
def scenarioTxns : List Txn :=
  [⟨"2024-01-15", "Tesco", -2350, "None"⟩, ⟨"2024-01-20", "Employer", 200000, "None"⟩]


/-- The mutable state of BankStatementApp that the core operations touch:
the global transactions and ignored_transactions lists, the persisted
ignore list of (date string, store) pairs, and the categories dict.
Persistence is identified with the in-memory copy (every mutation of the
ignore list and the categories dict is immediately saved in the source). -/
structure AppState where
  transactions : List Txn
  ignored_transactions : List Txn
  ignore_list : List (String × String)
  categories : List (String × String)
deriving DecidableEq, Repr


/-- The (date string, store) key of a transaction, as used by the ignore
list: (date.strftime "YYYY-MM-DD", store). -/
def pairKey (t : Txn) : String × String := (t.date, t.store)


/-- The matching test transaction[:2] == (date_obj, store) of the move
loops, on the string rendering of dates. -/
def matchKey (d st : String) (t : Txn) : Bool :=
  t.date == d && t.store == st


/-- The Python idiom for t in l: if p t: l.remove(t); break — returns the
list without its first element satisfying p, and that element if found. -/
def extractFirst (p : Txn → Bool) : List Txn → List Txn × Option Txn
  | [] => ([], none)
  | t :: ts =>
    if p t then (ts, some t)
    else ((extractFirst p ts).1.cons t, (extractFirst p ts).2)


/-- IgnoreListDialog.add_selectedd (move to ignored): if the (date, store)
pair is not yet in the ignore list, append it there, then move the first
matching transaction from transactions to ignored_transactions. -/
def add_selectedd (s : AppState) (date_str store : String) : AppState :=
  if (date_str, store) ∈ s.ignore_list then s
  else
    let il := s.ignore_list ++ [(date_str, store)]
    match extractFirst (matchKey date_str store) s.transactions with
    | (rest, some t) =>
      { s with
        ignore_list := il,
        transactions := rest,
        ignored_transactions := s.ignored_transactions ++ [t] }
    | (_, none) => { s with ignore_list := il }


/-- The ignore-list part of remove_selectedd: Python removes the pair only
when present (list.remove would raise otherwise), deleting its first
occurrence. -/
def ignoreRemovePair (il : List (String × String)) (date_str store : String) :
    List (String × String) :=
  if (date_str, store) ∈ il then il.erase (date_str, store) else il


/-- IgnoreListDialog.remove_selectedd (move to active): remove the pair
from the ignore list if present, then move the first matching transaction
from ignored_transactions back to transactions. -/
def remove_selectedd (s : AppState) (date_str store : String) : AppState :=
  match extractFirst (matchKey date_str store) s.ignored_transactions with
  | (rest, some t) =>
    { s with
      ignore_list := ignoreRemovePair s.ignore_list date_str store,
      ignored_transactions := rest,
      transactions := s.transactions ++ [t] }
  | (_, none) =>
    { s with ignore_list := ignoreRemovePair s.ignore_list date_str store }


/-- The apply-to-all loop of BankStatementApp.correct_transaction: every
transaction whose store equals the target store exactly gets the new
category; nothing else changes. -/
def apply_to_all (ts : List Txn) (store new_cat : String) : List Txn :=
  ts.map fun t => if t.store = store then { t with category := new_cat } else t


/-- BankStatementApp.correct_transaction on the transaction at index i:
no-op if the index is stale or the new category is empty or unchanged;
otherwise either the bulk store-wide update (update_all) together with the
categories dict entry for the store, or the single in-place update. -/
def correct_transaction (s : AppState) (i : Nat) (new_cat : String)
    (update_all : Bool) : AppState :=
  match s.transactions[i]? with
  | none => s
  | some t =>
    if new_cat = "" ∨ new_cat = t.category then s
    else if update_all then
      { s with
        transactions := apply_to_all s.transactions t.store new_cat,
        categories := dset s.categories t.store new_cat }
    else
      { s with transactions := s.transactions.set i { t with category := new_cat } }


/-- ASCII rendering of Python str.lower(), used for the case-insensitive
category comparisons of edit_category. -/
def lowerChar (c : Char) : Char :=
  if 'A' ≤ c ∧ c ≤ 'Z' then Char.ofNat (c.toNat + 32) else c


/-- Python str.lower() on the character list of a string. -/
def lower (s : String) : String := String.mk (s.data.map lowerChar)


/-- BankStatementApp.edit_category (category rename): when the new name is
nonempty and differs from the old one, rewrite the category of every
transaction in the active list matching the old name case-insensitively,
and remap every store of the categories dict likewise. -/
def edit_category (s : AppState) (old_cat new_cat : String) : AppState :=
  if new_cat ≠ "" ∧ new_cat ≠ old_cat then
    { s with
      transactions := s.transactions.map fun t =>
        if lower t.category = lower old_cat then { t with category := new_cat } else t,
      categories := s.categories.map fun p =>
        if lower p.2 = lower old_cat then (p.1, new_cat) else p }
  else s


/-- BankStatementApp.add_category: reject an empty store or category with
an error popup and no mutation; otherwise assign the category to the store
and save the categories file.  The Bool records whether a save happened. -/
def add_category (cats : List (String × String)) (store category : String) :
    List (String × String) × Bool :=
  if category = "" ∨ store = "" then (cats, false)
  else (dset cats store category, true)


/-- One CSV row of the import, with the two fallible library parses already
represented: dateParse is datetime.strptime(row["Date"], "%d %b %Y")
rendered as "YYYY-MM-DD" (none on parse failure), valueParse is
float(row["Value"]) (none on failure). -/
structure Row where
  dateParse : Option String
  description : String
  valueParse : Option Int
deriving DecidableEq, Repr


/-- The error popups the import surfaces: a per-row date error and a
per-file read error (bad amounts are skipped silently). -/
inductive ImportErr where
  | dateError
  | fileError
deriving DecidableEq, Repr


/-- The running state of a load_csv call: the application state plus the
errors reported so far. -/
structure LoadAcc where
  st : AppState
  errs : List ImportErr
deriving DecidableEq, Repr


/-- One iteration of the row loop of BankStatementApp.load_csv: parse the
date (error and skip on failure), extract the store, parse the amount
(silent skip on failure), resolve the category (registering an unseen
store as "None" and saving), then route by ignore-list membership. -/
def processRow (acc : LoadAcc) (row : Row) : LoadAcc :=
  match row.dateParse with
  | none => { acc with errs := acc.errs ++ [ImportErr.dateError] }
  | some d =>
    let store := extract_store_name row.description
    match row.valueParse with
    | none => acc
    | some amount =>
      let category := (dget acc.st.categories store).getD "None"
      let cats :=
        if dmem acc.st.categories store then acc.st.categories
        else dset acc.st.categories store category
      if (d, store) ∈ acc.st.ignore_list then
        { acc with
          st := { acc.st with
            ignored_transactions := acc.st.ignored_transactions
              ++ [⟨d, store, amount, category⟩],
            categories := cats } }
      else
        { acc with
          st := { acc.st with
            transactions := acc.st.transactions ++ [⟨d, store, amount, category⟩],
            categories := cats } }


/-- One iteration of the file loop of load_csv: an unreadable file (none)
reports a file error and is skipped; a readable one has its rows folded
through processRow. -/
def processFile (acc : LoadAcc) (file : Option (List Row)) : LoadAcc :=
  match file with
  | none => { acc with errs := acc.errs ++ [ImportErr.fileError] }
  | some rows => rows.foldl processRow acc


/-- BankStatementApp.load_csv: nothing happens without selected files; the
replace choice (only offered when transactions is nonempty) clears the
transactions list; then every file is processed in order. -/
def load_csv (s : AppState) (replace : Bool) (files : List (Option (List Row))) :
    AppState × List ImportErr :=
  if files = [] then (s, [])
  else
    let s0 :=
      if replace && !s.transactions.isEmpty then { s with transactions := [] } else s
    let acc := files.foldl processFile { st := s0, errs := [] }
    (acc.st, acc.errs)


/-- The (date, store, amount) content of the one transaction a successfully
parsed row contributes, used to state conservation facts about the import. -/
def rowTxn (cats : List (String × String)) (row : Row) : Option Txn :=
  match row.dateParse, row.valueParse with
  | some d, some v =>
    some ⟨d, extract_store_name row.description, v,
      (dget cats (extract_store_name row.description)).getD "None"⟩
  | _, _ => none


/-- The public operations of the application, as a step relation on
states: CSV load in either mode, the two ignore-list moves, category
correction in both modes, category rename, and category assignment. -/
inductive Step : AppState → AppState → Prop where
  | load (s : AppState) (replace : Bool) (files : List (Option (List Row))) :
      Step s (load_csv s replace files).1
  | ignoreAdd (s : AppState) (d st : String) : Step s (add_selectedd s d st)
  | ignoreRemove (s : AppState) (d st : String) : Step s (remove_selectedd s d st)
  | correct (s : AppState) (i : Nat) (nc : String) (b : Bool) :
      Step s (correct_transaction s i nc b)
  | rename (s : AppState) (oc nc : String) : Step s (edit_category s oc nc)
  | assign (s : AppState) (store cat : String) :
      Step s { s with categories := (add_category s.categories store cat).1 }


/-- States reachable from a given start state by the public operations. -/
def Reachable (s0 s : AppState) : Prop := Relation.ReflTransGen Step s0 s


/-- Transactions used by the concrete scenarios below: two sharing the
pair ("2024-01-01", "A") with different amounts, and one unrelated. -/
def txnB : Txn := ⟨"2024-01-02", "B", 3, "None"⟩


def txnA1 : Txn := ⟨"2024-01-01", "A", 1, "None"⟩


def txnA2 : Txn := ⟨"2024-01-01", "A", 2, "None"⟩


/-- The two rows of the duplicate-pair scenarios: same date and store,
different amounts. -/
def rowA1 : Row := ⟨some "2024-01-01", "X, A", some 1⟩


def rowA2 : Row := ⟨some "2024-01-01", "X, A", some 2⟩


/-- A start state whose persisted ignore file already lists the pair. -/
def initC5 : AppState := ⟨[], [], [("2024-01-01", "A")], []⟩


/-- After a merge load of the two duplicate rows (both routed to ignored)
and one move back to active: active holds the first copy, ignored the
second, and the registry no longer has the pair. -/
def sC5a : AppState := (load_csv initC5 false [some [rowA1, rowA2]]).1


def sC5b : AppState := remove_selectedd sC5a "2024-01-01" "A"


/-- The (date, store, amount) content of a transaction: the fields the
category edits never touch. -/
def tripKey (t : Txn) : String × String × Int := (t.date, t.store, t.amount)


/-- The combined multiset of transactions held by the two partitions. -/
def txnBag (s : AppState) : Multiset Txn :=
  ((s.transactions ++ s.ignored_transactions : List Txn) : Multiset Txn)


/-- The combined multiset of (date, store, amount) triples of the two
partitions. -/
def tripBag (s : AppState) : Multiset (String × String × Int) :=
  (((s.transactions ++ s.ignored_transactions).map tripKey : List _) : Multiset _)


/-- The registry correspondence of the spec: every ignored transaction has
its (date, store) pair registered, and no active transaction does. -/
def RegistryInv (s : AppState) : Prop :=
  (∀ t ∈ s.ignored_transactions, pairKey t ∈ s.ignore_list)
  ∧ (∀ t ∈ s.transactions, pairKey t ∉ s.ignore_list)


/-- Freedom from duplicates: the (date, store) pairs of all held
transactions are pairwise distinct and the registry has no repeated
entry. -/
def NodupKeys (s : AppState) : Prop :=
  ((s.transactions ++ s.ignored_transactions).map pairKey).Nodup
  ∧ s.ignore_list.Nodup


/-- The empty start state of BankStatementApp with empty persisted files. -/
def initC2 : AppState := ⟨[], [], [], []⟩


/-- Merge-load of the two duplicate-pair rows into the empty state: both
land in the active list. -/
def sC2a : AppState := (load_csv initC2 false [some [rowA1, rowA2]]).1


/-- Then one move to ignored registers the shared pair but moves only the
first copy, stranding the second copy in the active list. -/
def sC2b : AppState := add_selectedd sC2a "2024-01-01" "A"


theorem foldl_monthly_totals_income (ts : List Txn) (acc : Summary) (m : String) :
    (ts.foldl summaryStep acc).monthly_totals_income m
      = acc.monthly_totals_income m
        + ((ts.filter fun t => month t = m ∧ 0 < t.amount).map Txn.amount).sum := by
  induction ts generalizing acc with
  | nil => simp
  | cons t ts ih =>
    rw [List.foldl_cons, ih, List.filter_cons]
    rcases lt_trichotomy t.amount 0 with h | h | h
    · have h2 : ¬ (0 : Int) < t.amount := by omega
      simp [summaryStep, h, h2]
    · simp [summaryStep, h]
    · have h2 : ¬ t.amount < 0 := by omega
      by_cases hm : month t = m
      · simp only [summaryStep, if_neg h2, if_pos h, hm, h, and_self, decide_True,
          if_true, List.map_cons, List.sum_cons, bump, if_pos rfl]
        omega
      · have : ¬ (month t = m ∧ 0 < t.amount) := fun hc => hm hc.1
        simp only [summaryStep, if_neg h2, if_pos h, bump,
          decide_eq_true_eq, if_neg this]
        have hm2 : ¬ m = month t := fun e => hm e.symm
        simp [hm2]


theorem foldl_monthly_totals_spending (ts : List Txn) (acc : Summary) (m : String) :
    (ts.foldl summaryStep acc).monthly_totals_spending m
      = acc.monthly_totals_spending m
        + ((ts.filter fun t => month t = m ∧ t.amount < 0).map (fun t => |t.amount|)).sum := by
  induction ts generalizing acc with
  | nil => simp
  | cons t ts ih =>
    rw [List.foldl_cons, ih, List.filter_cons]
    rcases lt_trichotomy t.amount 0 with h | h | h
    · by_cases hm : month t = m
      · simp only [summaryStep, if_pos h, hm, h, and_self, decide_True,
          if_true, List.map_cons, List.sum_cons, bump, if_pos rfl]
        omega
      · have : ¬ (month t = m ∧ t.amount < 0) := fun hc => hm hc.1
        simp only [summaryStep, if_pos h, bump, decide_eq_true_eq, if_neg this]
        have hm2 : ¬ m = month t := fun e => hm e.symm
        simp [hm2]
    · simp [summaryStep, h]
    · have h2 : ¬ t.amount < 0 := by omega
      simp [summaryStep, h, h2]


theorem foldl_summary_income (ts : List Txn) (acc : Summary) (m c : String) :
    (ts.foldl summaryStep acc).summary_income m c
      = acc.summary_income m c
        + ((ts.filter fun t => month t = m ∧ t.category = c ∧ 0 < t.amount).map
            Txn.amount).sum := by
  induction ts generalizing acc with
  | nil => simp
  | cons t ts ih =>
    rw [List.foldl_cons, ih, List.filter_cons]
    rcases lt_trichotomy t.amount 0 with h | h | h
    · have h2 : ¬ (0 : Int) < t.amount := by omega
      simp [summaryStep, h, h2]
    · simp [summaryStep, h]
    · have h2 : ¬ t.amount < 0 := by omega
      by_cases hk : month t = m ∧ t.category = c
      · simp only [summaryStep, if_neg h2, if_pos h, hk.1, hk.2, h, and_self,
          decide_True, if_true, List.map_cons, List.sum_cons, bump2, if_pos rfl]
        omega
      · have hfil : ¬ (month t = m ∧ t.category = c ∧ 0 < t.amount) := by
          intro hc
          exact hk ⟨hc.1, hc.2.1⟩
        simp only [summaryStep, if_neg h2, if_pos h, bump2,
          decide_eq_true_eq, if_neg hfil]
        have hk2 : ¬ (m = month t ∧ c = t.category) := by
          intro hc
          exact hk ⟨hc.1.symm, hc.2.symm⟩
        simp [hk2]


theorem foldl_summary_spending (ts : List Txn) (acc : Summary) (m c : String) :
    (ts.foldl summaryStep acc).summary_spending m c
      = acc.summary_spending m c
        + ((ts.filter fun t => month t = m ∧ t.category = c ∧ t.amount < 0).map
            (fun t => |t.amount|)).sum := by
  induction ts generalizing acc with
  | nil => simp
  | cons t ts ih =>
    rw [List.foldl_cons, ih, List.filter_cons]
    rcases lt_trichotomy t.amount 0 with h | h | h
    · by_cases hk : month t = m ∧ t.category = c
      · simp only [summaryStep, if_pos h, hk.1, hk.2, h, and_self,
          decide_True, if_true, List.map_cons, List.sum_cons, bump2, if_pos rfl]
        omega
      · have hfil : ¬ (month t = m ∧ t.category = c ∧ t.amount < 0) := by
          intro hc
          exact hk ⟨hc.1, hc.2.1⟩
        simp only [summaryStep, if_pos h, bump2, decide_eq_true_eq, if_neg hfil]
        have hk2 : ¬ (m = month t ∧ c = t.category) := by
          intro hc
          exact hk ⟨hc.1.symm, hc.2.symm⟩
        simp [hk2]
    · simp [summaryStep, h]
    · have h2 : ¬ t.amount < 0 := by omega
      simp [summaryStep, h, h2]


/-- C1: after generate_summary runs over the active list, the monthly income
total of month m is the sum of amount over active transactions of month m
with amount > 0, the monthly spending total is the sum of abs(amount) over
those with amount < 0, the per-category tables are the same sums restricted
to category c, and a zero-amount transaction contributes to none of the
four tables. -/
theorem C1_aggregate_soundness (ts : List Txn) (m c : String) :
    (generate_summary ts).monthly_totals_income m
        = ((ts.filter fun t => month t = m ∧ 0 < t.amount).map Txn.amount).sum
  ∧ (generate_summary ts).monthly_totals_spending m
        = ((ts.filter fun t => month t = m ∧ t.amount < 0).map (fun t => |t.amount|)).sum
  ∧ (generate_summary ts).summary_income m c
        = ((ts.filter fun t => month t = m ∧ t.category = c ∧ 0 < t.amount).map
            Txn.amount).sum
  ∧ (generate_summary ts).summary_spending m c
        = ((ts.filter fun t => month t = m ∧ t.category = c ∧ t.amount < 0).map
            (fun t => |t.amount|)).sum
  ∧ (∀ (acc : Summary) (t0 : Txn), t0.amount = 0 → summaryStep acc t0 = acc) := by
  refine ⟨?_, ?_, ?_, ?_, ?_⟩
  · rw [generate_summary, foldl_monthly_totals_income]
    simp [initSummary]
  · rw [generate_summary, foldl_monthly_totals_spending]
    simp [initSummary]
  · rw [generate_summary, foldl_summary_income]
    simp [initSummary]
  · rw [generate_summary, foldl_summary_spending]
    simp [initSummary]
  · intro acc t0 h0
    simp [summaryStep, h0]


theorem C1_aggregate_soundness_witness :
    (generate_summary scenarioTxns).monthly_totals_income "2024-01" = 200000
  ∧ (generate_summary scenarioTxns).monthly_totals_spending "2024-01" = 2350
  ∧ summaryStep initSummary ⟨"2024-03-01", "S", 0, "None"⟩ = initSummary := by
  refine ⟨?_, ?_, ?_⟩
  · exact (C1_aggregate_soundness scenarioTxns "2024-01" "None").1.trans (by decide)
  · exact (C1_aggregate_soundness scenarioTxns "2024-01" "None").2.1.trans (by decide)
  · exact (C1_aggregate_soundness scenarioTxns "2024-01" "None").2.2.2.2
      initSummary ⟨"2024-03-01", "S", 0, "None"⟩ rfl


theorem dget_map_self (d : List (String × String)) (k v : String)
    (h : dmem d k = true) :
    dget (d.map fun p => if p.1 == k then (k, v) else p) k = some v := by
  induction d with
  | nil => simp [dmem] at h
  | cons p d ih =>
    rw [List.map_cons]
    by_cases hp : (p.1 == k) = true
    · rw [if_pos hp]
      simp only [dget]
      rw [List.find?_cons_of_pos _ (by simp)]
      rfl
    · rw [if_neg hp]
      have h2 : dmem d k = true := by
        simp only [dmem, List.any_cons, Bool.or_eq_true] at h
        rcases h with h | h
        · exact absurd h hp
        · simpa [dmem] using h
      have hind := ih h2
      simp only [dget] at hind ⊢
      have hfind : List.find? (fun q => q.1 == k)
            (p :: (d.map fun q => if q.1 == k then (k, v) else q))
          = List.find? (fun q => q.1 == k)
            (d.map fun q => if q.1 == k then (k, v) else q) :=
        List.find?_cons_of_neg _ hp
      rw [hfind]
      exact hind


theorem dget_append_self (d : List (String × String)) (k v : String)
    (h : dmem d k = false) :
    dget (d ++ [(k, v)]) k = some v := by
  induction d with
  | nil =>
    rw [List.nil_append]
    simp only [dget]
    rw [List.find?_cons_of_pos _ (by simp)]
    rfl
  | cons p d ih =>
    simp only [dmem, List.any_cons, Bool.or_eq_false_iff] at h
    have hind := ih (by simpa [dmem] using h.2)
    simp only [dget] at hind ⊢
    have hfind : List.find? (fun q => q.1 == k) (p :: (d ++ [(k, v)]))
        = List.find? (fun q => q.1 == k) (d ++ [(k, v)]) :=
      List.find?_cons_of_neg _ (by simp [h.1])
    rw [List.cons_append, hfind]
    exact hind


theorem dget_dset_self (d : List (String × String)) (k v : String) :
    dget (dset d k v) k = some v := by
  unfold dset
  by_cases h : dmem d k
  · rw [if_pos h]
    exact dget_map_self d k v h
  · rw [if_neg h]
    exact dget_append_self d k v (by simpa using h)


/-- C10: add_category with an empty store or category leaves the
categories dict untouched and triggers no save; with both nonempty the
dict afterwards maps the store to the category and a save is triggered. -/
theorem C10_add_category (cats : List (String × String)) (store cat : String) :
    ((store = "" ∨ cat = "") → add_category cats store cat = (cats, false))
  ∧ (store ≠ "" → cat ≠ "" →
      (add_category cats store cat).2 = true
    ∧ dget (add_category cats store cat).1 store = some cat) := by
  constructor
  · intro h
    rcases h with h | h <;> simp [add_category, h]
  · intro hs hc
    rw [add_category, if_neg (by tauto)]
    exact ⟨rfl, dget_dset_self cats store cat⟩


theorem C10_add_category_witness :
    dget (add_category [("Amazon", "Shopping")] "Tesco" "Food").1 "Tesco" = some "Food"
  ∧ add_category [("Amazon", "Shopping")] "" "Food" = ([("Amazon", "Shopping")], false) := by
  constructor
  · exact ((C10_add_category [("Amazon", "Shopping")] "Tesco" "Food").2
      (by decide) (by decide)).2
  · exact (C10_add_category [("Amazon", "Shopping")] "" "Food").1 (Or.inl rfl)


/-- C9: the apply-to-all category update rewrites exactly the transactions
whose store is string-equal to the target (a case-insensitive near-match
keeps its previous category), changes only the category field, and keeps
the list length and order. -/
theorem C9_bulk_update_exact_store (ts : List Txn) (store new_cat : String) (i : Nat) :
    (apply_to_all ts store new_cat)[i]? =
      (ts[i]?).map (fun t => if t.store = store then { t with category := new_cat } else t)
  ∧ (apply_to_all ts store new_cat).length = ts.length
  ∧ (∀ t0, ts[i]? = some t0 → t0.store ≠ store →
      (apply_to_all ts store new_cat)[i]? = some t0)
  ∧ (∀ t0, ts[i]? = some t0 → t0.store = store →
      (apply_to_all ts store new_cat)[i]? =
        some { date := t0.date, store := t0.store, amount := t0.amount,
               category := new_cat }) := by
  refine ⟨?_, ?_, ?_, ?_⟩
  · simp [apply_to_all]
  · simp [apply_to_all]
  · intro t0 h0 hne
    simp [apply_to_all, h0, hne]
  · intro t0 h0 heq
    simp [apply_to_all, h0, heq]


theorem C9_bulk_update_exact_store_witness :
    (apply_to_all
        [⟨"2024-01-15", "Tesco", -5, "None"⟩, ⟨"2024-01-16", "TESCO", -7, "Old"⟩]
        "Tesco" "Food")[1]?
      = some ⟨"2024-01-16", "TESCO", -7, "Old"⟩
  ∧ (apply_to_all
        [⟨"2024-01-15", "Tesco", -5, "None"⟩, ⟨"2024-01-16", "TESCO", -7, "Old"⟩]
        "Tesco" "Food")[0]?
      = some ⟨"2024-01-15", "Tesco", -5, "Food"⟩ := by
  constructor
  · exact (C9_bulk_update_exact_store
      [⟨"2024-01-15", "Tesco", -5, "None"⟩, ⟨"2024-01-16", "TESCO", -7, "Old"⟩]
      "Tesco" "Food" 1).2.2.1 ⟨"2024-01-16", "TESCO", -7, "Old"⟩ (by decide) (by decide)
  · exact (C9_bulk_update_exact_store
      [⟨"2024-01-15", "Tesco", -5, "None"⟩, ⟨"2024-01-16", "TESCO", -7, "Old"⟩]
      "Tesco" "Food" 0).2.2.2 ⟨"2024-01-15", "Tesco", -5, "None"⟩ (by decide) (by decide)


theorem extractFirst_none (p : Txn → Bool) (l : List Txn)
    (h : (extractFirst p l).2 = none) :
    (extractFirst p l).1 = l ∧ ∀ x ∈ l, p x = false := by
  induction l with
  | nil => exact ⟨rfl, by simp⟩
  | cons t ts ih =>
    by_cases hp : p t = true
    · simp [extractFirst, hp] at h
    · have hp2 : p t = false := by
        cases hq : p t
        · rfl
        · exact absurd hq hp
      simp only [extractFirst, hp2, Bool.false_eq_true, if_false] at h ⊢
      obtain ⟨h1, h2⟩ := ih h
      refine ⟨by rw [h1, List.cons_eq_cons]; exact ⟨rfl, rfl⟩, ?_⟩
      intro x hx
      rcases List.mem_cons.mp hx with rfl | hx2
      · exact hp2
      · exact h2 x hx2


theorem extractFirst_some (p : Txn → Bool) (l : List Txn) (t : Txn)
    (h : (extractFirst p l).2 = some t) :
    p t = true ∧ l.Perm (t :: (extractFirst p l).1) := by
  induction l with
  | nil => simp [extractFirst] at h
  | cons a ts ih =>
    by_cases hp : p a = true
    · simp only [extractFirst, if_pos hp] at h ⊢
      obtain rfl : a = t := by simpa using h
      exact ⟨hp, List.Perm.refl _⟩
    · have hp2 : p a = false := by
        cases hq : p a
        · rfl
        · exact absurd hq hp
      simp only [extractFirst, hp2, Bool.false_eq_true, if_false] at h ⊢
      obtain ⟨hpt, hperm⟩ := ih h
      exact ⟨hpt, (hperm.cons a).trans (List.Perm.swap t a _)⟩


theorem extractFirst_append_first (p : Txn → Bool) (pre post : List Txn) (t : Txn)
    (hpre : ∀ u ∈ pre, p u = false) (ht : p t = true) :
    extractFirst p (pre ++ t :: post) = (pre ++ post, some t) := by
  induction pre with
  | nil => simp [extractFirst, ht]
  | cons a pre ih =>
    have ha : p a = false := hpre a (by simp)
    have hih := ih (fun u hu => hpre u (by simp [hu]))
    simp only [List.cons_append, extractFirst, ha, Bool.false_eq_true, if_false,
      List.append_eq]
    rw [hih]


theorem extractFirst_some_of_mem (p : Txn → Bool) (l : List Txn) (x : Txn)
    (hx : x ∈ l) (hp : p x = true) :
    ∃ t, (extractFirst p l).2 = some t := by
  induction l with
  | nil => cases hx
  | cons a ts ih =>
    by_cases ha : p a = true
    · exact ⟨a, by simp [extractFirst, ha]⟩
    · have ha2 : p a = false := by
        cases hq : p a
        · rfl
        · exact absurd hq ha
      rcases List.mem_cons.mp hx with rfl | hx2
      · exact absurd hp ha
      · obtain ⟨t, htt⟩ := ih hx2
        exact ⟨t, by simp [extractFirst, ha2, htt]⟩


/-- C8: with duplicate (date, store) pairs in a sequence, a move keyed by
that pair removes exactly the first matching transaction in iteration
order and leaves every later occurrence (the whole tail after it) in
place, in both directions of the move. -/
theorem C8_first_occurrence (s : AppState) (d st : String)
    (pre post : List Txn) (t : Txn)
    (hpre : ∀ u ∈ pre, matchKey d st u = false) (ht : matchKey d st t = true) :
    (s.transactions = pre ++ t :: post → (d, st) ∉ s.ignore_list →
        (add_selectedd s d st).transactions = pre ++ post
      ∧ (add_selectedd s d st).ignored_transactions = s.ignored_transactions ++ [t])
  ∧ (s.ignored_transactions = pre ++ t :: post →
        (remove_selectedd s d st).ignored_transactions = pre ++ post
      ∧ (remove_selectedd s d st).transactions = s.transactions ++ [t]) := by
  constructor
  · intro htr hmem
    rw [add_selectedd, if_neg hmem, htr,
      extractFirst_append_first (matchKey d st) pre post t hpre ht]
    exact ⟨rfl, rfl⟩
  · intro hig
    rw [remove_selectedd, hig,
      extractFirst_append_first (matchKey d st) pre post t hpre ht]
    exact ⟨rfl, rfl⟩


theorem C8_first_occurrence_witness :
    (add_selectedd ⟨[txnB, txnA1, txnA2], [txnB, txnA1, txnA2], [], []⟩
        "2024-01-01" "A").transactions = [txnB, txnA2]
  ∧ (remove_selectedd ⟨[txnB, txnA1, txnA2], [txnB, txnA1, txnA2], [], []⟩
        "2024-01-01" "A").ignored_transactions = [txnB, txnA2] := by
  constructor
  · exact ((C8_first_occurrence ⟨[txnB, txnA1, txnA2], [txnB, txnA1, txnA2], [], []⟩
      "2024-01-01" "A" [txnB] [txnA2] txnA1 (by decide) (by decide)).1 rfl
      (by decide)).1
  · exact ((C8_first_occurrence ⟨[txnB, txnA1, txnA2], [txnB, txnA1, txnA2], [], []⟩
      "2024-01-01" "A" [txnB] [txnA2] txnA1 (by decide) (by decide)).2 rfl).1


/-- C7: a row whose date fails to parse is skipped with a reported date
error while the remaining rows are still processed; a row whose value
fails to parse is skipped silently; an unreadable file is abandoned with a
reported file error while the remaining files are still processed; none
of the three adds a transaction. -/
theorem C7_import_error_handling :
    (∀ (acc : LoadAcc) (row : Row) (rest : List Row), row.dateParse = none →
        (row :: rest).foldl processRow acc
          = rest.foldl processRow { acc with errs := acc.errs ++ [ImportErr.dateError] }
      ∧ (processRow acc row).st = acc.st)
  ∧ (∀ (acc : LoadAcc) (row : Row) (d : String),
        row.dateParse = some d → row.valueParse = none →
        processRow acc row = acc)
  ∧ (∀ (acc : LoadAcc) (rest : List (Option (List Row))),
        (none :: rest).foldl processFile acc
          = rest.foldl processFile
              { acc with errs := acc.errs ++ [ImportErr.fileError] }) := by
  refine ⟨?_, ?_, ?_⟩
  · intro acc row rest hd
    constructor
    · rw [List.foldl_cons]
      simp [processRow, hd]
    · simp [processRow, hd]
  · intro acc row d hd hv
    simp [processRow, hd, hv]
  · intro acc rest
    rw [List.foldl_cons]
    simp [processFile]


theorem C7_import_error_handling_witness :
    ([⟨none, "X, A", some 5⟩] : List Row).foldl processRow ⟨⟨[], [], [], []⟩, []⟩
      = ⟨⟨[], [], [], []⟩, [ImportErr.dateError]⟩
  ∧ processRow ⟨⟨[], [], [], []⟩, []⟩ ⟨some "2024-01-01", "X, A", none⟩
      = ⟨⟨[], [], [], []⟩, []⟩
  ∧ ([none] : List (Option (List Row))).foldl processFile ⟨⟨[], [], [], []⟩, []⟩
      = ⟨⟨[], [], [], []⟩, [ImportErr.fileError]⟩ := by
  refine ⟨?_, ?_, ?_⟩
  · exact (C7_import_error_handling.1 ⟨⟨[], [], [], []⟩, []⟩
      ⟨none, "X, A", some 5⟩ [] rfl).1
  · exact C7_import_error_handling.2.1 ⟨⟨[], [], [], []⟩, []⟩
      ⟨some "2024-01-01", "X, A", none⟩ "2024-01-01" rfl rfl
  · exact C7_import_error_handling.2.2 ⟨⟨[], [], [], []⟩, []⟩ []


/-- C6: a successfully parsed row is appended to ignored_transactions when
its (date string, store) pair is in the ignore list and to transactions
otherwise; the other sequence is untouched either way. -/
theorem C6_import_routing (acc : LoadAcc) (row : Row) (d : String) (v : Int)
    (hd : row.dateParse = some d) (hv : row.valueParse = some v) :
    ((d, extract_store_name row.description) ∈ acc.st.ignore_list →
        (processRow acc row).st.ignored_transactions
          = acc.st.ignored_transactions
            ++ [⟨d, extract_store_name row.description, v,
                (dget acc.st.categories (extract_store_name row.description)).getD "None"⟩]
      ∧ (processRow acc row).st.transactions = acc.st.transactions)
  ∧ ((d, extract_store_name row.description) ∉ acc.st.ignore_list →
        (processRow acc row).st.transactions
          = acc.st.transactions
            ++ [⟨d, extract_store_name row.description, v,
                (dget acc.st.categories (extract_store_name row.description)).getD "None"⟩]
      ∧ (processRow acc row).st.ignored_transactions
          = acc.st.ignored_transactions) := by
  constructor
  · intro hm
    constructor <;> simp [processRow, hd, hv, hm]
  · intro hm
    constructor <;> simp [processRow, hd, hv, hm]


theorem C6_import_routing_witness :
    (processRow ⟨⟨[], [], [("2024-01-01", "A")], []⟩, []⟩
        ⟨some "2024-01-01", "X, A", some 5⟩).st.ignored_transactions
      = [⟨"2024-01-01", "A", 5, "None"⟩]
  ∧ (processRow ⟨⟨[], [], [], []⟩, []⟩
        ⟨some "2024-01-01", "X, A", some 5⟩).st.transactions
      = [⟨"2024-01-01", "A", 5, "None"⟩] := by
  constructor
  · have h := (C6_import_routing ⟨⟨[], [], [("2024-01-01", "A")], []⟩, []⟩
      ⟨some "2024-01-01", "X, A", some 5⟩ "2024-01-01" 5 rfl rfl).1 (by decide)
    rw [h.1]
    decide
  · have h := (C6_import_routing ⟨⟨[], [], [], []⟩, []⟩
      ⟨some "2024-01-01", "X, A", some 5⟩ "2024-01-01" 5 rfl rfl).2 (by decide)
    rw [h.1]
    decide


theorem processRow_extends (acc : LoadAcc) (row : Row) :
    ∃ a b, (processRow acc row).st.transactions = acc.st.transactions ++ a
      ∧ (processRow acc row).st.ignored_transactions
          = acc.st.ignored_transactions ++ b := by
  rw [processRow]
  cases hd : row.dateParse with
  | none => exact ⟨[], [], by simp, by simp⟩
  | some d =>
    cases hv : row.valueParse with
    | none => exact ⟨[], [], by simp, by simp⟩
    | some v =>
      by_cases hm : (d, extract_store_name row.description) ∈ acc.st.ignore_list
      · refine ⟨[], [⟨d, extract_store_name row.description, v,
          (dget acc.st.categories (extract_store_name row.description)).getD "None"⟩],
          ?_, ?_⟩ <;> simp [hm]
      · refine ⟨[⟨d, extract_store_name row.description, v,
          (dget acc.st.categories (extract_store_name row.description)).getD "None"⟩],
          [], ?_, ?_⟩ <;> simp [hm]


theorem foldl_processRow_extends (rows : List Row) (acc : LoadAcc) :
    ∃ a b, (rows.foldl processRow acc).st.transactions = acc.st.transactions ++ a
      ∧ (rows.foldl processRow acc).st.ignored_transactions
          = acc.st.ignored_transactions ++ b := by
  induction rows generalizing acc with
  | nil => exact ⟨[], [], by simp, by simp⟩
  | cons row rows ih =>
    obtain ⟨a1, b1, h1, h2⟩ := processRow_extends acc row
    obtain ⟨a2, b2, h3, h4⟩ := ih (processRow acc row)
    exact ⟨a1 ++ a2, b1 ++ b2,
      by rw [List.foldl_cons, h3, h1, List.append_assoc],
      by rw [List.foldl_cons, h4, h2, List.append_assoc]⟩


theorem foldl_processFile_extends (files : List (Option (List Row))) (acc : LoadAcc) :
    ∃ a b, (files.foldl processFile acc).st.transactions = acc.st.transactions ++ a
      ∧ (files.foldl processFile acc).st.ignored_transactions
          = acc.st.ignored_transactions ++ b := by
  induction files generalizing acc with
  | nil => exact ⟨[], [], by simp, by simp⟩
  | cons file files ih =>
    have hstep : ∃ a b, (processFile acc file).st.transactions
          = acc.st.transactions ++ a
        ∧ (processFile acc file).st.ignored_transactions
          = acc.st.ignored_transactions ++ b := by
      cases file with
      | none => exact ⟨[], [], by simp [processFile], by simp [processFile]⟩
      | some rows => exact foldl_processRow_extends rows acc
    obtain ⟨a1, b1, h1, h2⟩ := hstep
    obtain ⟨a2, b2, h3, h4⟩ := ih (processFile acc file)
    exact ⟨a1 ++ a2, b1 ++ b2,
      by rw [List.foldl_cons, h3, h1, List.append_assoc],
      by rw [List.foldl_cons, h4, h2, List.append_assoc]⟩


/-- C3 counterexample: a replace-mode load over a readable but empty file
clears the transactions list but leaves the previously ignored
transaction in place, so not every transaction in the two partitions
comes from the newly imported files. -/
theorem C3_counterexample :
    (load_csv ⟨[txnB], [txnA1], [], []⟩ true [some []]).1.transactions = []
  ∧ (load_csv ⟨[txnB], [txnA1], [], []⟩ true [some []]).1.ignored_transactions = [txnA1]
  ∧ ¬ (load_csv ⟨[txnB], [txnA1], [], []⟩ true [some []]).1.ignored_transactions
        = [] := by
  refine ⟨by decide, by decide, by decide⟩


/-- C3 amended: a replace-mode load (over a nonempty file selection, with
a nonempty transactions list so the replace question is asked) clears only
the transactions list — it behaves exactly like a merge load started from
a state whose transactions list is empty, retaining ignored_transactions —
and a merge load clears nothing: both lists of the result extend the
original ones. -/
theorem C3_load_modes (s : AppState) (files : List (Option (List Row))) :
    (files ≠ [] → s.transactions ≠ [] →
      load_csv s true files = load_csv { s with transactions := [] } false files)
  ∧ (load_csv s false files).1.transactions.take s.transactions.length
      = s.transactions
  ∧ (load_csv s false files).1.ignored_transactions.take
        s.ignored_transactions.length
      = s.ignored_transactions := by
  refine ⟨?_, ?_, ?_⟩
  · intro hfiles htr
    have hne : s.transactions.isEmpty = false := by
      cases hh : s.transactions
      · exact absurd hh htr
      · rfl
    simp [load_csv, hfiles, hne]
  · by_cases hfiles : files = []
    · simp [load_csv, hfiles, List.take_length]
    · rw [load_csv, if_neg hfiles]
      obtain ⟨a, b, h1, h2⟩ := foldl_processFile_extends files ⟨s, []⟩
      simp only [Bool.false_and, Bool.false_eq_true, if_false]
      rw [h1]
      exact List.take_left s.transactions a
  · by_cases hfiles : files = []
    · simp [load_csv, hfiles, List.take_length]
    · rw [load_csv, if_neg hfiles]
      obtain ⟨a, b, h1, h2⟩ := foldl_processFile_extends files ⟨s, []⟩
      simp only [Bool.false_and, Bool.false_eq_true, if_false]
      rw [h2]
      exact List.take_left s.ignored_transactions b


theorem C3_load_modes_witness :
    load_csv ⟨[txnB], [txnA1], [], []⟩ true [some []]
      = load_csv ⟨[], [txnA1], [], []⟩ false [some []]
  ∧ (load_csv ⟨[txnB], [txnA1], [], []⟩ false [some []]).1.transactions.take 1
      = [txnB] := by
  constructor
  · exact (C3_load_modes ⟨[txnB], [txnA1], [], []⟩ [some []]).1
      (by decide) (by decide)
  · exact (C3_load_modes ⟨[txnB], [txnA1], [], []⟩ [some []]).2.1


/-- C4 counterexample: the rename loop walks only the active transactions
list, so an ignored in-memory transaction keeps the old category; and
renaming a category to a case-variant of itself leaves active
transactions whose category still equals the old one case-insensitively. -/
theorem C4_counterexample :
    (edit_category ⟨[], [⟨"2024-01-15", "T", -5, "Groceries"⟩],
        [("2024-01-15", "T")], [("T", "Groceries")]⟩ "Groceries" "Food"
      ).ignored_transactions = [⟨"2024-01-15", "T", -5, "Groceries"⟩]
  ∧ (∃ t ∈ (edit_category ⟨[⟨"2024-02-01", "S", -5, "Food"⟩], [], [], []⟩
        "Food" "FOOD").transactions, lower t.category = lower "Food") := by
  constructor
  · decide
  · exact ⟨⟨"2024-02-01", "S", -5, "FOOD"⟩, by decide, by decide⟩


/-- C4 amended: after edit_category with a nonempty new name different
from the old one, every store mapped (case-insensitively) to the old
category is remapped to the new one, every transaction of the active list
whose category matched case-insensitively carries the new category, and —
provided the new name is not a case-variant of the old one — no active
transaction and no store mapping retains a category equal to the old one
case-insensitively.  Ignored transactions are not rewritten. -/
theorem C4_rename_propagation (s : AppState) (old_cat new_cat : String)
    (hne : new_cat ≠ "") (hdiff : new_cat ≠ old_cat) :
    (∀ st c, (st, c) ∈ s.categories → lower c = lower old_cat →
        (st, new_cat) ∈ (edit_category s old_cat new_cat).categories)
  ∧ (∀ t ∈ s.transactions, lower t.category = lower old_cat →
        { t with category := new_cat } ∈ (edit_category s old_cat new_cat).transactions)
  ∧ (lower new_cat ≠ lower old_cat →
        (∀ t ∈ (edit_category s old_cat new_cat).transactions,
            lower t.category ≠ lower old_cat)
      ∧ (∀ st c, (st, c) ∈ (edit_category s old_cat new_cat).categories →
            lower c ≠ lower old_cat))
  ∧ (edit_category s old_cat new_cat).ignored_transactions
      = s.ignored_transactions := by
  rw [edit_category, if_pos ⟨hne, hdiff⟩]
  refine ⟨?_, ?_, ?_, rfl⟩
  · intro st c hmem hl
    refine List.mem_map.mpr ⟨(st, c), hmem, ?_⟩
    simp [hl]
  · intro t hmem hl
    refine List.mem_map.mpr ⟨t, hmem, ?_⟩
    simp [hl]
  · intro hlow
    constructor
    · intro t hmem
      obtain ⟨u, _, rfl⟩ := List.mem_map.mp hmem
      by_cases hu : lower u.category = lower old_cat
      · rw [if_pos hu]
        exact hlow
      · rw [if_neg hu]
        exact hu
    · intro st c hmem
      obtain ⟨⟨st0, c0⟩, _, heq⟩ := List.mem_map.mp hmem
      by_cases hu : lower c0 = lower old_cat
      · rw [if_pos hu] at heq
        cases heq
        exact hlow
      · rw [if_neg hu] at heq
        cases heq
        exact hu


theorem C4_rename_propagation_witness :
    (("T", "Food") ∈ (edit_category ⟨[⟨"2024-01-15", "T", -5, "gROCERIES"⟩], [],
        [], [("T", "Groceries")]⟩ "Groceries" "Food").categories)
  ∧ (⟨"2024-01-15", "T", -5, "Food"⟩ : Txn) ∈ (edit_category
      ⟨[⟨"2024-01-15", "T", -5, "gROCERIES"⟩], [], [], [("T", "Groceries")]⟩
      "Groceries" "Food").transactions := by
  constructor
  · exact (C4_rename_propagation ⟨[⟨"2024-01-15", "T", -5, "gROCERIES"⟩], [],
      [], [("T", "Groceries")]⟩ "Groceries" "Food" (by decide) (by decide)).1
      "T" "Groceries" (by decide) (by decide)
  · exact (C4_rename_propagation ⟨[⟨"2024-01-15", "T", -5, "gROCERIES"⟩], [],
      [], [("T", "Groceries")]⟩ "Groceries" "Food" (by decide) (by decide)).2.1
      ⟨"2024-01-15", "T", -5, "gROCERIES"⟩ (by decide) (by decide)


theorem add_selectedd_of_mem (s : AppState) (d st : String)
    (h : (d, st) ∈ s.ignore_list) : add_selectedd s d st = s := by
  rw [add_selectedd, if_pos h]


theorem add_selectedd_of_none (s : AppState) (d st : String)
    (hmem : (d, st) ∉ s.ignore_list)
    (hext : (extractFirst (matchKey d st) s.transactions).2 = none) :
    add_selectedd s d st = { s with ignore_list := s.ignore_list ++ [(d, st)] } := by
  have hpair : extractFirst (matchKey d st) s.transactions
      = ((extractFirst (matchKey d st) s.transactions).1, none) := by
    rw [← hext]
  rw [add_selectedd, if_neg hmem, hpair]


theorem add_selectedd_of_some (s : AppState) (d st : String) (t0 : Txn)
    (hmem : (d, st) ∉ s.ignore_list)
    (hext : (extractFirst (matchKey d st) s.transactions).2 = some t0) :
    add_selectedd s d st =
      { s with
        ignore_list := s.ignore_list ++ [(d, st)],
        transactions := (extractFirst (matchKey d st) s.transactions).1,
        ignored_transactions := s.ignored_transactions ++ [t0] } := by
  have hpair : extractFirst (matchKey d st) s.transactions
      = ((extractFirst (matchKey d st) s.transactions).1, some t0) := by
    rw [← hext]
  rw [add_selectedd, if_neg hmem, hpair]


theorem remove_selectedd_of_none (s : AppState) (d st : String)
    (hext : (extractFirst (matchKey d st) s.ignored_transactions).2 = none) :
    remove_selectedd s d st =
      { s with ignore_list := ignoreRemovePair s.ignore_list d st } := by
  have hpair : extractFirst (matchKey d st) s.ignored_transactions
      = ((extractFirst (matchKey d st) s.ignored_transactions).1, none) := by
    rw [← hext]
  rw [remove_selectedd, hpair]


theorem remove_selectedd_of_some (s : AppState) (d st : String) (t0 : Txn)
    (hext : (extractFirst (matchKey d st) s.ignored_transactions).2 = some t0) :
    remove_selectedd s d st =
      { s with
        ignore_list := ignoreRemovePair s.ignore_list d st,
        ignored_transactions := (extractFirst (matchKey d st) s.ignored_transactions).1,
        transactions := s.transactions ++ [t0] } := by
  have hpair : extractFirst (matchKey d st) s.ignored_transactions
      = ((extractFirst (matchKey d st) s.ignored_transactions).1, some t0) := by
    rw [← hext]
  rw [remove_selectedd, hpair]


theorem erase_append_singleton (l : List (String × String)) (a : String × String)
    (h : a ∉ l) : (l ++ [a]).erase a = l := by
  rw [List.erase_append_right _ h, List.erase_cons_head, List.append_nil]


/-- C5 counterexample: in the reachable state sC5b the transaction txnA1
is active, yet ignoring and un-ignoring its (date, store) key does not
restore it — the move back picks the other transaction with the same
pair, leaving txnA1 in the ignored sequence. -/
theorem C5_counterexample :
    txnA1 ∈ sC5b.transactions
  ∧ Reachable initC5 sC5b
  ∧ txnA1 ∉ (remove_selectedd (add_selectedd sC5b "2024-01-01" "A")
        "2024-01-01" "A").transactions
  ∧ txnA1 ∈ (remove_selectedd (add_selectedd sC5b "2024-01-01" "A")
        "2024-01-01" "A").ignored_transactions := by
  refine ⟨by decide, ?_, by decide, by decide⟩
  exact Relation.ReflTransGen.tail
    (Relation.ReflTransGen.single (Step.load initC5 false [some [rowA1, rowA2]]))
    (Step.ignoreRemove sC5a "2024-01-01" "A")


/-- C5 amended: for a transaction t of the active sequence whose
(date, store) pair is not already registered and matches no ignored
transaction, moving it to ignored and back restores a transaction with
identical field values to the active sequence and returns the ignored
sequence and the registry to exactly their previous values. -/
theorem C5_ignore_toggle (s : AppState) (t : Txn)
    (ht : t ∈ s.transactions)
    (hreg : (t.date, t.store) ∉ s.ignore_list)
    (hign : ∀ u ∈ s.ignored_transactions, matchKey t.date t.store u = false) :
    t ∈ (remove_selectedd (add_selectedd s t.date t.store)
          t.date t.store).transactions
  ∧ (remove_selectedd (add_selectedd s t.date t.store)
        t.date t.store).ignored_transactions = s.ignored_transactions
  ∧ (remove_selectedd (add_selectedd s t.date t.store)
        t.date t.store).ignore_list = s.ignore_list := by
  have hmt : matchKey t.date t.store t = true := by
    simp [matchKey]
  obtain ⟨t0, ht0⟩ :=
    extractFirst_some_of_mem (matchKey t.date t.store) s.transactions t ht hmt
  obtain ⟨hpt0, hperm⟩ :=
    extractFirst_some (matchKey t.date t.store) s.transactions t0 ht0
  have hadd := add_selectedd_of_some s t.date t.store t0 hreg ht0
  have hext2 : extractFirst (matchKey t.date t.store)
      (s.ignored_transactions ++ [t0]) = (s.ignored_transactions, some t0) := by
    have h := extractFirst_append_first (matchKey t.date t.store)
      s.ignored_transactions [] t0 hign hpt0
    simpa using h
  have hrem := remove_selectedd_of_some (add_selectedd s t.date t.store)
    t.date t.store t0 (by rw [hadd]; rw [show ({ s with
        ignore_list := s.ignore_list ++ [(t.date, t.store)],
        transactions := (extractFirst (matchKey t.date t.store) s.transactions).1,
        ignored_transactions := s.ignored_transactions ++ [t0] }
          : AppState).ignored_transactions
        = s.ignored_transactions ++ [t0] from rfl, hext2])
  rw [hrem, hadd]
  have hil : ignoreRemovePair (s.ignore_list ++ [(t.date, t.store)])
      t.date t.store = s.ignore_list := by
    rw [ignoreRemovePair, if_pos (by simp)]
    exact erase_append_singleton _ _ hreg
  have hig2 : (extractFirst (matchKey t.date t.store)
      (s.ignored_transactions ++ [t0])).1 = s.ignored_transactions := by
    rw [hext2]
  refine ⟨?_, ?_, ?_⟩
  · have hsub : t ∈ t0 :: (extractFirst (matchKey t.date t.store) s.transactions).1 :=
      hperm.subset ht
    rcases List.mem_cons.mp hsub with rfl | hmem2
    · exact List.mem_append_right _ (by simp)
    · exact List.mem_append_left _ hmem2
  · exact hig2
  · exact hil


theorem C5_ignore_toggle_witness :
    txnB ∈ (remove_selectedd (add_selectedd ⟨[txnB], [txnA1], [], []⟩
        "2024-01-02" "B") "2024-01-02" "B").transactions := by
  exact (C5_ignore_toggle ⟨[txnB], [txnA1], [], []⟩ txnB
    (by decide) (by decide) (by decide)).1


theorem txnBag_add_selectedd (s : AppState) (d st : String) :
    txnBag (add_selectedd s d st) = txnBag s := by
  by_cases hmem : (d, st) ∈ s.ignore_list
  · rw [add_selectedd_of_mem s d st hmem]
  · cases hext : (extractFirst (matchKey d st) s.transactions).2 with
    | none =>
      rw [add_selectedd_of_none s d st hmem hext]
      rfl
    | some t0 =>
      rw [add_selectedd_of_some s d st t0 hmem hext]
      obtain ⟨hpt0, hperm⟩ := extractFirst_some _ _ _ hext
      show (((extractFirst (matchKey d st) s.transactions).1
            ++ (s.ignored_transactions ++ [t0]) : List Txn) : Multiset Txn)
        = ((s.transactions ++ s.ignored_transactions : List Txn) : Multiset Txn)
      apply Multiset.coe_eq_coe.mpr
      rw [← List.append_assoc]
      refine (List.perm_append_singleton t0 _).trans ?_
      exact (hperm.symm).append_right s.ignored_transactions


theorem txnBag_remove_selectedd (s : AppState) (d st : String) :
    txnBag (remove_selectedd s d st) = txnBag s := by
  cases hext : (extractFirst (matchKey d st) s.ignored_transactions).2 with
  | none =>
    rw [remove_selectedd_of_none s d st hext]
    rfl
  | some t0 =>
    rw [remove_selectedd_of_some s d st t0 hext]
    obtain ⟨hpt0, hperm⟩ := extractFirst_some _ _ _ hext
    show (((s.transactions ++ [t0])
          ++ (extractFirst (matchKey d st) s.ignored_transactions).1 : List Txn)
            : Multiset Txn)
      = ((s.transactions ++ s.ignored_transactions : List Txn) : Multiset Txn)
    apply Multiset.coe_eq_coe.mpr
    rw [List.append_assoc]
    exact List.Perm.append_left s.transactions hperm.symm


theorem tripBag_processRow (acc : LoadAcc) (row : Row) :
    tripBag (processRow acc row).st
      = tripBag acc.st
        + (((rowTxn acc.st.categories row).toList.map tripKey : List _) : Multiset _) := by
  cases hd : row.dateParse with
  | none => simp [processRow, rowTxn, hd]
  | some d =>
    cases hv : row.valueParse with
    | none => simp [processRow, rowTxn, hd, hv]
    | some v =>
      by_cases hm : (d, extract_store_name row.description) ∈ acc.st.ignore_list
      · simp only [processRow, rowTxn, hd, hv, if_pos hm]
        rw [tripBag, tripBag, Multiset.coe_add]
        apply Multiset.coe_eq_coe.mpr
        apply List.Perm.of_eq
        simp [List.map_append, List.append_assoc]
      · simp only [processRow, rowTxn, hd, hv, if_neg hm]
        rw [tripBag, tripBag, Multiset.coe_add]
        apply Multiset.coe_eq_coe.mpr
        simp only [List.map_append]
        rw [List.append_assoc, List.append_assoc]
        exact List.Perm.append_left _ (List.perm_append_comm)


theorem map_tripKey_set (l : List Txn) (i : Nat) (t : Txn) (nc : String)
    (h : l[i]? = some t) :
    (l.set i { t with category := nc }).map tripKey = l.map tripKey := by
  induction l generalizing i with
  | nil => simp at h
  | cons a l ih =>
    cases i with
    | zero =>
      obtain rfl : a = t := by simpa using h
      simp [tripKey]
    | succ n =>
      have h2 : l[n]? = some t := by simpa using h
      simp [List.set, ih n h2]


theorem map_tripKey_apply_to_all (ts : List Txn) (store nc : String) :
    (apply_to_all ts store nc).map tripKey = ts.map tripKey := by
  rw [apply_to_all, List.map_map]
  apply List.map_congr_left
  intro x _
  by_cases hx : x.store = store <;> simp [tripKey, hx]


theorem tripBag_correct_transaction (s : AppState) (i : Nat) (nc : String) (b : Bool) :
    tripBag (correct_transaction s i nc b) = tripBag s := by
  rw [correct_transaction]
  cases hi : s.transactions[i]? with
  | none => rfl
  | some t =>
    dsimp only
    by_cases hg : nc = "" ∨ nc = t.category
    · rw [if_pos hg]
    · rw [if_neg hg]
      cases b with
      | true =>
        rw [if_pos rfl]
        rw [tripBag, tripBag]
        apply Multiset.coe_eq_coe.mpr
        apply List.Perm.of_eq
        simp only [List.map_append]
        rw [map_tripKey_apply_to_all]
      | false =>
        rw [if_neg (by simp)]
        rw [tripBag, tripBag]
        apply Multiset.coe_eq_coe.mpr
        apply List.Perm.of_eq
        simp only [List.map_append]
        rw [map_tripKey_set s.transactions i t nc hi]


theorem tripBag_edit_category (s : AppState) (oc nc : String) :
    tripBag (edit_category s oc nc) = tripBag s := by
  rw [edit_category]
  by_cases hg : nc ≠ "" ∧ nc ≠ oc
  · rw [if_pos hg]
    rw [tripBag, tripBag]
    apply Multiset.coe_eq_coe.mpr
    apply List.Perm.of_eq
    simp only [List.map_append, List.map_map]
    congr 1
    apply List.map_congr_left
    intro x _
    by_cases hx : lower x.category = lower oc <;> simp [tripKey, hx]
  · rw [if_neg hg]


theorem pairKey_eq_of_matchKey {d st : String} {t : Txn}
    (h : matchKey d st t = true) : pairKey t = (d, st) := by
  rw [matchKey, Bool.and_eq_true, beq_iff_eq, beq_iff_eq] at h
  rw [pairKey, h.1, h.2]


theorem pairKey_ne_of_not_matchKey {d st : String} {t : Txn}
    (h : matchKey d st t = false) : pairKey t ≠ (d, st) := by
  intro he
  rw [pairKey, Prod.mk.injEq] at he
  rw [matchKey, he.1, he.2] at h
  simp at h


theorem registryInv_processRow (acc : LoadAcc) (row : Row)
    (h : RegistryInv acc.st) : RegistryInv (processRow acc row).st := by
  cases hd : row.dateParse with
  | none =>
    simp only [processRow, hd]
    exact h
  | some d =>
    cases hv : row.valueParse with
    | none =>
      simp only [processRow, hd, hv]
      exact h
    | some v =>
      by_cases hm : (d, extract_store_name row.description) ∈ acc.st.ignore_list
      · simp only [processRow, hd, hv, if_pos hm]
        refine ⟨?_, ?_⟩
        · intro u hu
          rcases List.mem_append.mp hu with hu | hu
          · exact h.1 u hu
          · have he : u = ⟨d, extract_store_name row.description, v,
                (dget acc.st.categories (extract_store_name row.description)).getD
                  "None"⟩ := by
              simpa using hu
            rw [he]
            exact hm
        · intro u hu
          exact h.2 u hu
      · simp only [processRow, hd, hv, if_neg hm]
        refine ⟨?_, ?_⟩
        · intro u hu
          exact h.1 u hu
        · intro u hu
          rcases List.mem_append.mp hu with hu | hu
          · exact h.2 u hu
          · have he : u = ⟨d, extract_store_name row.description, v,
                (dget acc.st.categories (extract_store_name row.description)).getD
                  "None"⟩ := by
              simpa using hu
            rw [he]
            exact hm


theorem registryInv_foldRows (rows : List Row) (acc : LoadAcc)
    (h : RegistryInv acc.st) : RegistryInv ((rows.foldl processRow acc).st) := by
  induction rows generalizing acc with
  | nil => exact h
  | cons row rows ih =>
    exact ih (processRow acc row) (registryInv_processRow acc row h)


theorem registryInv_foldFiles (files : List (Option (List Row))) (acc : LoadAcc)
    (h : RegistryInv acc.st) : RegistryInv ((files.foldl processFile acc).st) := by
  induction files generalizing acc with
  | nil => exact h
  | cons file files ih =>
    refine ih (processFile acc file) ?_
    cases file with
    | none => exact h
    | some rows => exact registryInv_foldRows rows acc h


theorem registryInv_load_csv (s : AppState) (replace : Bool)
    (files : List (Option (List Row))) (h : RegistryInv s) :
    RegistryInv (load_csv s replace files).1 := by
  rw [load_csv]
  by_cases hf : files = []
  · rw [if_pos hf]
    exact h
  · rw [if_neg hf]
    dsimp only
    refine registryInv_foldFiles files _ ?_
    by_cases hr : (replace && !s.transactions.isEmpty) = true
    · rw [if_pos hr]
      refine ⟨h.1, ?_⟩
      intro t ht
      exact absurd ht (List.not_mem_nil t)
    · rw [if_neg hr]
      exact h


theorem registryInv_add_selectedd (s : AppState) (d st : String)
    (h : RegistryInv s) (hnd : NodupKeys s) :
    RegistryInv (add_selectedd s d st) := by
  by_cases hmem : (d, st) ∈ s.ignore_list
  · rw [add_selectedd_of_mem s d st hmem]
    exact h
  · cases hext : (extractFirst (matchKey d st) s.transactions).2 with
    | none =>
      obtain ⟨h1, h2⟩ := extractFirst_none _ _ hext
      rw [add_selectedd_of_none s d st hmem hext]
      refine ⟨?_, ?_⟩
      · intro u hu
        exact List.mem_append_left _ (h.1 u hu)
      · intro u hu hin
        rcases List.mem_append.mp hin with hin | hin
        · exact h.2 u hu hin
        · have hp : pairKey u = (d, st) := by simpa using hin
          exact pairKey_ne_of_not_matchKey (h2 u hu) hp
    | some t0 =>
      obtain ⟨hpt0, hperm⟩ := extractFirst_some _ _ _ hext
      have hkey0 : pairKey t0 = (d, st) := pairKey_eq_of_matchKey hpt0
      rw [add_selectedd_of_some s d st t0 hmem hext]
      have hmapnodup : (s.transactions.map pairKey).Nodup := by
        have h0 := hnd.1
        rw [List.map_append] at h0
        exact h0.of_append_left
      have hpermmap : (s.transactions.map pairKey).Perm
          (pairKey t0 ::
            ((extractFirst (matchKey d st) s.transactions).1.map pairKey)) := by
        have hmp := hperm.map pairKey
        simpa using hmp
      have hnod2 : pairKey t0 ∉
          ((extractFirst (matchKey d st) s.transactions).1.map pairKey) :=
        (List.nodup_cons.mp (hpermmap.nodup_iff.mp hmapnodup)).1
      refine ⟨?_, ?_⟩
      · intro u hu
        rcases List.mem_append.mp hu with hu | hu
        · exact List.mem_append_left _ (h.1 u hu)
        · have he : u = t0 := by simpa using hu
          subst he
          rw [hkey0]
          exact List.mem_append_right _ (by simp)
      · intro u hu hin
        have humem : u ∈ s.transactions :=
          hperm.symm.subset (List.mem_cons_of_mem t0 hu)
        rcases List.mem_append.mp hin with hin | hin
        · exact h.2 u humem hin
        · have hp : pairKey u = (d, st) := by simpa using hin
          have hpin : pairKey u ∈
              ((extractFirst (matchKey d st) s.transactions).1.map pairKey) :=
            List.mem_map_of_mem pairKey hu
          rw [hp, ← hkey0] at hpin
          exact hnod2 hpin


theorem registryInv_remove_selectedd (s : AppState) (d st : String)
    (h : RegistryInv s) (hnd : NodupKeys s) :
    RegistryInv (remove_selectedd s d st) := by
  cases hext : (extractFirst (matchKey d st) s.ignored_transactions).2 with
  | none =>
    obtain ⟨h1, h2⟩ := extractFirst_none _ _ hext
    rw [remove_selectedd_of_none s d st hext]
    refine ⟨?_, ?_⟩
    · intro u hu
      have hpne : pairKey u ≠ (d, st) := pairKey_ne_of_not_matchKey (h2 u hu)
      rw [ignoreRemovePair]
      by_cases hil : (d, st) ∈ s.ignore_list
      · rw [if_pos hil]
        exact (List.mem_erase_of_ne hpne).mpr (h.1 u hu)
      · rw [if_neg hil]
        exact h.1 u hu
    · intro u hu hin
      rw [ignoreRemovePair] at hin
      by_cases hil : (d, st) ∈ s.ignore_list
      · rw [if_pos hil] at hin
        exact h.2 u hu (List.mem_of_mem_erase hin)
      · rw [if_neg hil] at hin
        exact h.2 u hu hin
  | some t0 =>
    obtain ⟨hpt0, hperm⟩ := extractFirst_some _ _ _ hext
    have hkey0 : pairKey t0 = (d, st) := pairKey_eq_of_matchKey hpt0
    have hmapnodup : (s.ignored_transactions.map pairKey).Nodup := by
      have h0 := hnd.1
      rw [List.map_append] at h0
      exact h0.of_append_right
    have hpermmap : (s.ignored_transactions.map pairKey).Perm
        (pairKey t0 ::
          ((extractFirst (matchKey d st) s.ignored_transactions).1.map pairKey)) := by
      have hmp := hperm.map pairKey
      simpa using hmp
    have hnod2 : pairKey t0 ∉
        ((extractFirst (matchKey d st) s.ignored_transactions).1.map pairKey) :=
      (List.nodup_cons.mp (hpermmap.nodup_iff.mp hmapnodup)).1
    rw [remove_selectedd_of_some s d st t0 hext]
    refine ⟨?_, ?_⟩
    · intro u hu
      have humem : u ∈ s.ignored_transactions :=
        hperm.symm.subset (List.mem_cons_of_mem t0 hu)
      have hune : pairKey u ≠ (d, st) := by
        intro hp
        have hpin : pairKey u ∈
            ((extractFirst (matchKey d st) s.ignored_transactions).1.map pairKey) :=
          List.mem_map_of_mem pairKey hu
        rw [hp, ← hkey0] at hpin
        exact hnod2 hpin
      rw [ignoreRemovePair]
      by_cases hil : (d, st) ∈ s.ignore_list
      · rw [if_pos hil]
        exact (List.mem_erase_of_ne hune).mpr (h.1 u humem)
      · rw [if_neg hil]
        exact h.1 u humem
    · intro u hu hin
      rcases List.mem_append.mp hu with hu | hu
      · rw [ignoreRemovePair] at hin
        by_cases hil : (d, st) ∈ s.ignore_list
        · rw [if_pos hil] at hin
          exact h.2 u hu (List.mem_of_mem_erase hin)
        · rw [if_neg hil] at hin
          exact h.2 u hu hin
      · have he : u = t0 := by simpa using hu
        subst he
        rw [hkey0, ignoreRemovePair] at hin
        by_cases hil : (d, st) ∈ s.ignore_list
        · rw [if_pos hil] at hin
          exact hnd.2.not_mem_erase hin
        · rw [if_neg hil] at hin
          exact hil hin


theorem registryInv_correct_transaction (s : AppState) (i : Nat) (nc : String)
    (b : Bool) (h : RegistryInv s) : RegistryInv (correct_transaction s i nc b) := by
  rw [correct_transaction]
  cases hi : s.transactions[i]? with
  | none => exact h
  | some t =>
    dsimp only
    by_cases hg : nc = "" ∨ nc = t.category
    · rw [if_pos hg]
      exact h
    · rw [if_neg hg]
      cases b with
      | true =>
        rw [if_pos rfl]
        refine ⟨h.1, ?_⟩
        intro u hu
        rw [show ({ s with
            transactions := apply_to_all s.transactions t.store nc,
            categories := dset s.categories t.store nc } : AppState).transactions
          = apply_to_all s.transactions t.store nc from rfl, apply_to_all] at hu
        obtain ⟨x, hx, rfl⟩ := List.mem_map.mp hu
        have hpk : pairKey (if x.store = t.store then { x with category := nc } else x)
            = pairKey x := by
          by_cases hxx : x.store = t.store <;> simp [pairKey, hxx]
        rw [hpk]
        exact h.2 x hx
      | false =>
        rw [if_neg (by simp)]
        refine ⟨h.1, ?_⟩
        intro u hu
        rcases List.mem_or_eq_of_mem_set hu with hu | he
        · exact h.2 u hu
        · subst he
          exact h.2 t (List.getElem?_mem hi)


theorem registryInv_edit_category (s : AppState) (oc nc : String)
    (h : RegistryInv s) : RegistryInv (edit_category s oc nc) := by
  rw [edit_category]
  by_cases hg : nc ≠ "" ∧ nc ≠ oc
  · rw [if_pos hg]
    refine ⟨h.1, ?_⟩
    intro u hu
    obtain ⟨x, hx, rfl⟩ := List.mem_map.mp hu
    have hpk : pairKey (if lower x.category = lower oc
          then { x with category := nc } else x)
        = pairKey x := by
      by_cases hxx : lower x.category = lower oc <;> simp [pairKey, hxx]
    rw [hpk]
    exact h.2 x hx
  · rw [if_neg hg]
    exact h


theorem step_registryInv (s s3 : AppState) (hstep : Step s s3)
    (hInv : RegistryInv s) (hnd : NodupKeys s) : RegistryInv s3 := by
  cases hstep with
  | load replace files => exact registryInv_load_csv s replace files hInv
  | ignoreAdd d st => exact registryInv_add_selectedd s d st hInv hnd
  | ignoreRemove d st => exact registryInv_remove_selectedd s d st hInv hnd
  | correct i nc b => exact registryInv_correct_transaction s i nc b hInv
  | rename oc nc => exact registryInv_edit_category s oc nc hInv
  | assign store cat => exact ⟨hInv.1, hInv.2⟩


/-- C2 counterexample: in the reachable state sC2b the active transaction
txnA2 has its (date, store) pair in the IgnoreRegistry even though it is
not in the ignored sequence, refuting the registry iff of the claim. -/
theorem C2_counterexample :
    ¬ (∀ s3 : AppState, Reachable initC2 s3 →
        ∀ t ∈ s3.transactions ++ s3.ignored_transactions,
          ((t ∈ s3.transactions ∧ t ∉ s3.ignored_transactions)
            ∨ (t ∉ s3.transactions ∧ t ∈ s3.ignored_transactions))
          ∧ (pairKey t ∈ s3.ignore_list ↔ t ∈ s3.ignored_transactions)) := by
  intro h
  have hreach : Reachable initC2 sC2b :=
    Relation.ReflTransGen.tail
      (Relation.ReflTransGen.single (Step.load initC2 false [some [rowA1, rowA2]]))
      (Step.ignoreAdd sC2a "2024-01-01" "A")
  have h2 := (h sC2b hreach txnA2 (by decide)).2
  exact absurd (h2.mp (by decide)) (by decide)


/-- C2 amended: every public operation keeps each held transaction in
exactly one of the two sequences — the two moves conserve the combined
transaction multiset, each import step adds its one parsed transaction to
exactly one sequence, the category operations conserve the combined
(date, store, amount) multiset, and assignment touches neither sequence —
and every operation preserves the registry correspondence (ignored pairs
registered, active pairs not) provided the held (date, store) pairs are
pairwise distinct and the registry has no duplicate entries.  With
duplicate pairs the registry iff can fail (see the counterexample). -/
theorem C2_partition_and_registry :
    (∀ (s : AppState) (d st : String),
        txnBag (add_selectedd s d st) = txnBag s)
  ∧ (∀ (s : AppState) (d st : String),
        txnBag (remove_selectedd s d st) = txnBag s)
  ∧ (∀ (acc : LoadAcc) (row : Row),
        tripBag (processRow acc row).st
          = tripBag acc.st
            + (((rowTxn acc.st.categories row).toList.map tripKey : List _)
                : Multiset _))
  ∧ (∀ (s : AppState) (i : Nat) (nc : String) (b : Bool),
        tripBag (correct_transaction s i nc b) = tripBag s)
  ∧ (∀ (s : AppState) (oc nc : String), tripBag (edit_category s oc nc) = tripBag s)
  ∧ (∀ (s : AppState) (store cat : String),
        ({ s with categories := (add_category s.categories store cat).1 }
            : AppState).transactions = s.transactions
      ∧ ({ s with categories := (add_category s.categories store cat).1 }
            : AppState).ignored_transactions = s.ignored_transactions)
  ∧ (∀ s s3 : AppState, Step s s3 → RegistryInv s → NodupKeys s → RegistryInv s3) :=
  ⟨txnBag_add_selectedd, txnBag_remove_selectedd, tripBag_processRow,
    tripBag_correct_transaction, tripBag_edit_category,
    fun _ _ _ => ⟨rfl, rfl⟩, step_registryInv⟩


theorem C2_partition_and_registry_witness :
    RegistryInv (add_selectedd ⟨[txnB], [txnA1], [("2024-01-01", "A")], []⟩
      "2024-01-02" "B") :=
  C2_partition_and_registry.2.2.2.2.2.2
    ⟨[txnB], [txnA1], [("2024-01-01", "A")], []⟩ _
    (Step.ignoreAdd ⟨[txnB], [txnA1], [("2024-01-01", "A")], []⟩ "2024-01-02" "B")
    ⟨by decide, by decide⟩ ⟨by decide, by decide⟩


end FinanceTracker
